import Mathlib

/-!
Verification of `logdevice/ops/ldshell/autoload/commands/nodes_config.py`:
the `nodes-config` ldshell command group (`show`, `edit`, `bootstrap`,
`shrink`).  The Python code is shallowly embedded below; external
collaborators (the admin client, the NCM codec, the text editor process,
the user's prompt answers, the wall clock) are modelled as explicit inputs,
so every run of a command is a pure function of the fetched document and a
script of external events.
-/

namespace NCfg

/-- Semantic JSON values as produced by Python's `json.loads`.  Numbers are
modelled as integers: the nodes-config documents the command manipulates
carry integer fields (`version`, `last_timestamp`, node indices). -/
inductive Json where
  | null
  | bool (b : Bool)
  | num (n : Int)
  | str (s : String)
  | arr (elems : List Json)
  | obj (fields : List (String × Json))

mutual

/-- Decidable structural equality on JSON values (Python `==` on the values
`json.loads` returns). -/
def Json.decEq : (a b : Json) → Decidable (a = b)
  | .null, .null => isTrue rfl
  | .null, .bool _ => isFalse nofun
  | .null, .num _ => isFalse nofun
  | .null, .str _ => isFalse nofun
  | .null, .arr _ => isFalse nofun
  | .null, .obj _ => isFalse nofun
  | .bool _, .null => isFalse nofun
  | .bool a, .bool b =>
      if h : a = b then isTrue (by rw [h])
      else isFalse (by intro hh; injection hh; contradiction)
  | .bool _, .num _ => isFalse nofun
  | .bool _, .str _ => isFalse nofun
  | .bool _, .arr _ => isFalse nofun
  | .bool _, .obj _ => isFalse nofun
  | .num _, .null => isFalse nofun
  | .num _, .bool _ => isFalse nofun
  | .num a, .num b =>
      if h : a = b then isTrue (by rw [h])
      else isFalse (by intro hh; injection hh; contradiction)
  | .num _, .str _ => isFalse nofun
  | .num _, .arr _ => isFalse nofun
  | .num _, .obj _ => isFalse nofun
  | .str _, .null => isFalse nofun
  | .str _, .bool _ => isFalse nofun
  | .str _, .num _ => isFalse nofun
  | .str a, .str b =>
      if h : a = b then isTrue (by rw [h])
      else isFalse (by intro hh; injection hh; contradiction)
  | .str _, .arr _ => isFalse nofun
  | .str _, .obj _ => isFalse nofun
  | .arr _, .null => isFalse nofun
  | .arr _, .bool _ => isFalse nofun
  | .arr _, .num _ => isFalse nofun
  | .arr _, .str _ => isFalse nofun
  | .arr xs, .arr ys =>
      match Json.decEqList xs ys with
      | isTrue h => isTrue (by rw [h])
      | isFalse h => isFalse (by intro hh; injection hh; contradiction)
  | .arr _, .obj _ => isFalse nofun
  | .obj _, .null => isFalse nofun
  | .obj _, .bool _ => isFalse nofun
  | .obj _, .num _ => isFalse nofun
  | .obj _, .str _ => isFalse nofun
  | .obj _, .arr _ => isFalse nofun
  | .obj xs, .obj ys =>
      match Json.decEqFields xs ys with
      | isTrue h => isTrue (by rw [h])
      | isFalse h => isFalse (by intro hh; injection hh; contradiction)

/-- Decidable equality on JSON arrays' element lists. -/
def Json.decEqList : (a b : List Json) → Decidable (a = b)
  | [], [] => isTrue rfl
  | [], _ :: _ => isFalse nofun
  | _ :: _, [] => isFalse nofun
  | x :: xs, y :: ys =>
      match Json.decEq x y, Json.decEqList xs ys with
      | isTrue h1, isTrue h2 => isTrue (by rw [h1, h2])
      | isFalse h1, _ => isFalse (by intro hh; injection hh; contradiction)
      | _, isFalse h2 => isFalse (by intro hh; injection hh; contradiction)

/-- Decidable equality on JSON objects' field lists. -/
def Json.decEqFields : (a b : List (String × Json)) → Decidable (a = b)
  | [], [] => isTrue rfl
  | [], _ :: _ => isFalse nofun
  | _ :: _, [] => isFalse nofun
  | (k, v) :: xs, (l, w) :: ys =>
      if h1 : k = l then
        match Json.decEq v w, Json.decEqFields xs ys with
        | isTrue h2, isTrue h3 => isTrue (by rw [h1, h2, h3])
        | isFalse h2, _ =>
            isFalse (by intro hh; injection hh with hp _; injection hp; contradiction)
        | _, isFalse h3 =>
            isFalse (by intro hh; injection hh; contradiction)
      else isFalse (by intro hh; injection hh with hp _; injection hp; contradiction)

end

instance : DecidableEq Json := Json.decEq

/-- A parsed JSON object, i.e. a Python `dict` as returned by `json.loads`
on an object literal: an association list with (by construction of the
parser) unique keys. -/
abbrev Doc := List (String × Json)

/-- Python `d[k]` / `d.get(k)`: the binding of `k` in the dict, if any. -/
def Doc.lookup (d : Doc) (k : String) : Option Json :=
  match d with
  | [] => none
  | (k', v) :: rest => if k' = k then some v else Doc.lookup rest k

/-- Python `d[k] = v`: replace the binding of `k` in place, or append it. -/
def Doc.set (d : Doc) (k : String) (v : Json) : Doc :=
  match d with
  | [] => [(k, v)]
  | (k', v') :: rest =>
      if k' = k then (k, v) :: rest else (k', v') :: Doc.set rest k v

/-- One character of Python `json.dumps` string escaping.  (Simplification
of the stdlib encoder: `\uXXXX` escapes for other control characters and
the `ensure_ascii` escaping of non-ASCII characters are not modelled; no
claim depends on the rendering of such characters.) -/
def jsonEscapeChar (c : Char) : String :=
  if c = '"' then "\\\""
  else if c = '\\' then "\\\\"
  else if c = '\n' then "\\n"
  else if c = '\t' then "\\t"
  else if c = '\r' then "\\r"
  else String.singleton c

/-- A JSON string literal as rendered by `json.dumps`. -/
def jsonQuote (s : String) : String :=
  "\"" ++ String.join (s.toList.map jsonEscapeChar) ++ "\""

/-- `indent=4`: the indentation prefix at nesting depth `n`. -/
def pad (n : Nat) : String := String.mk (List.replicate (4 * n) ' ')

/-- Lexicographic code-point comparison of character lists: Python `<` on
strings, as used by `sorted()` for `sort_keys=True`. -/
def strLtChars : List Char → List Char → Bool
  | [], [] => false
  | [], _ :: _ => true
  | _ :: _, [] => false
  | c :: cs, d :: ds =>
      if c.toNat < d.toNat then true
      else if d.toNat < c.toNat then false
      else strLtChars cs ds

/-- Python `a < b` on strings (lexicographic by code point). -/
def strLt (a b : String) : Bool := strLtChars a.toList b.toList

/-- Insert a rendered field into a key-sorted list of rendered fields
(`sort_keys=True`). -/
def insertField (p : String × String) :
    List (String × String) → List (String × String)
  | [] => [p]
  | q :: qs => if strLt p.1 q.1 then p :: q :: qs else q :: insertField p qs

/-- Sort rendered object fields by key (`sort_keys=True`). -/
def sortFields : List (String × String) → List (String × String)
  | [] => []
  | p :: ps => insertField p (sortFields ps)

mutual

/-- Model of `json.dumps(x, indent=4, sort_keys=True)` at nesting depth
`depth`: object keys sorted, four-space indentation, `": "` and `","`
separators, empty containers rendered inline. -/
def renderJson (depth : Nat) : Json → String
  | .null => "null"
  | .bool true => "true"
  | .bool false => "false"
  | .num n => toString n
  | .str s => jsonQuote s
  | .arr [] => "[]"
  | .arr (x :: xs) =>
      "[\n"
        ++ String.intercalate ",\n"
             ((renderItems (depth + 1) (x :: xs)).map (fun s => pad (depth + 1) ++ s))
        ++ "\n" ++ pad depth ++ "]"
  | .obj [] => "\x7b\x7d"
  | .obj (f :: fs) =>
      "\x7b\n"
        ++ String.intercalate ",\n"
             ((sortFields (renderFields (depth + 1) (f :: fs))).map
               (fun p => pad (depth + 1) ++ jsonQuote p.1 ++ ": " ++ p.2))
        ++ "\n" ++ pad depth ++ "\x7d"

/-- Render each array element at the given depth. -/
def renderItems (depth : Nat) : List Json → List String
  | [] => []
  | x :: xs => renderJson depth x :: renderItems depth xs

/-- Render each object field's value at the given depth, keeping the key. -/
def renderFields (depth : Nat) : List (String × Json) → List (String × String)
  | [] => []
  | (k, v) :: rest => (k, renderJson depth v) :: renderFields depth rest

end

/-- `json.dumps(x, indent=4, sort_keys=True)`: the stably-ordered serialized
snapshot used for the editor seed and both diffs (lines 121, 130-131, 149
of the source). -/
def dumps (j : Json) : String := renderJson 0 j

/-- Helper for `splitLines`: split a character list at every newline,
keeping empty pieces (Python `str.split` semantics). -/
def splitLinesAux : List Char → List String
  | [] => [""]
  | c :: cs =>
      match splitLinesAux cs with
      | [] => [""]
      | line :: rest =>
          if c = '\n' then "" :: line :: rest
          else (String.singleton c ++ line) :: rest

/-- Python `s.split("\n")`: the list of lines between newline characters,
empty pieces kept. -/
def splitLines (s : String) : List String := splitLinesAux s.toList

/-! ### The diff engine

`difflib.unified_diff` (Python standard library, external to this
repository) is modelled at the granularity the program observes.
`difflib.unified_diff` yields no lines at all when the two line sequences
are equal (all `SequenceMatcher` opcodes are `equal`, so no opcode group is
produced) and yields at least the `---`/`+++` header lines when they differ
(full-coverage opcodes that are all `equal` would force the sequences to be
equal).  The model below computes a simple line-based edit script rather
than `SequenceMatcher`'s longest-matching-block script; the two streams
agree on emptiness, which is the only property of the stream the program
(line 136: `next(diff, None) is None`) and this development rely on. -/

/-- One line-level edit operation. -/
inductive DiffOp where
  | keep (l : String)
  | drop (l : String)
  | add (l : String)
deriving DecidableEq

/-- A line-based edit script between two line sequences. -/
def diffOps : List String → List String → List DiffOp
  | [], bs => bs.map .add
  | a :: as, [] => .drop a :: diffOps as []
  | a :: as, b :: bs =>
      if a = b then .keep a :: diffOps as bs
      else .drop a :: .add b :: diffOps as bs

/-- `true` iff the edit script contains no insertion or deletion. -/
def allKeep : List DiffOp → Bool
  | [] => true
  | .keep _ :: rest => allKeep rest
  | .drop _ :: _ => false
  | .add _ :: _ => false

/-- Render one edit operation as a unified-diff body line. -/
def renderOp : DiffOp → String
  | .keep l => " " ++ l
  | .drop l => "-" ++ l
  | .add l => "+" ++ l

/-- Model of `difflib.unified_diff(a, b, lineterm="")` (see the section
comment above): empty when the inputs are equal, headers plus an edit
script otherwise. -/
def unifiedDiff (a b : List String) : List String :=
  let ops := diffOps a b
  if allKeep ops then []
  else "--- " :: "+++ " :: ops.map renderOp

/-- Line 136 of the source: `next(diff, None) is None` negated, i.e. the
diff stream is non-empty. -/
def hasChanges (a b : List String) : Bool := !(unifiedDiff a b).isEmpty

/-! ### The version/timestamp reconciler

Lines 139-146 of `NodesConfig.edit`:
```
if edited_nc.get("version", nc["version"]) == nc["version"]:
    edited_nc["version"] = nc["version"] + 1
if (edited_nc.get("last_timestamp", nc["last_timestamp"])
        == nc["last_timestamp"]):
    edited_nc["last_timestamp"] = int(time.time() * 1000)  # time in ms
```
`int(time.time() * 1000)` is the wall clock, an external input: it is passed
in as `nowMs`.  A missing `nc["version"]`/`nc["last_timestamp"]` raises
`KeyError` and a non-numeric `nc["version"] + 1` raises `TypeError` — both
escape the loop's `except` clause (which catches only `EditorError`,
`json.JSONDecodeError` and `NCMError`), modelled as `none`. -/
def reconcile (nowMs : Int) (nc edited : Doc) : Option Doc :=
  match Doc.lookup nc "version" with
  | none => none
  | some v =>
    let step1 : Option Doc :=
      if (Doc.lookup edited "version").getD v = v then
        match v with
        | Json.num vn => some (Doc.set edited "version" (Json.num (vn + 1)))
        | _ => none
      else some edited
    match step1 with
    | none => none
    | some e1 =>
      match Doc.lookup nc "last_timestamp" with
      | none => none
      | some lt =>
        some (if (Doc.lookup e1 "last_timestamp").getD lt = lt
              then Doc.set e1 "last_timestamp" (Json.num nowMs) else e1)

/-! ### The edit loop

`NodesConfig.edit` (lines 108-186) is an interactive retry loop.  Its
interactions with the outside world — the editor process, `json.loads`,
the wall clock, the user's menu choice, the NCM codec and store, and the
"Try again?" prompt — are collected per iteration in an `Attempt` record;
a run of the loop is a pure function of the fetched baseline document and
a finite script of attempts.  Observable actions are recorded as trace
events so that invariants over whole sessions can be stated. -/

/-- The user's answer to `[1] Apply / [2] Edit / [3] Cancel` (line 160). -/
inductive Choice where
  | apply
  | editAgain
  | cancel
deriving DecidableEq

/-- The external events one iteration of the `while True:` loop can
consume.  `rc`/`saved` describe the editor process (its exit code and the
temporary file's contents when it exits); `parsed` is the response of
`json.loads` to the saved text (`none` = `json.JSONDecodeError`); `nowMs`
is `int(time.time() * 1000)` at this iteration; `choice` answers the menu
prompt; `serializeOk`/`overwriteOk` tell whether
`ncm.json_to_nodes_configuration` and `ncm.overwrite_nodes_configuration`
succeed; `tryAgain` answers the `Try again?` prompt.  Fields are consumed
only when the corresponding interaction is reached. -/
structure Attempt where
  rc : Int
  saved : String
  parsed : Option Json
  nowMs : Int
  choice : Choice
  serializeOk : Bool
  overwriteOk : Bool
  tryAgain : Bool
deriving DecidableEq

/-- Observable actions of a session, in order. -/
inductive TraceEv where
  /-- `_get_nodes_config` returned this baseline document (line 116). -/
  | fetch (nc : Doc)
  /-- `_edit_text_with_editor` was invoked with this seed text (line 126). -/
  | editorSeed (text : String)
  /-- The pre-reconciliation no-op diff was computed between these line
  lists (lines 130-134). -/
  | preDiff (base edited : List String)
  /-- `EditorError("No changes detected")` was raised (line 137). -/
  | noChangesRaised
  /-- The reconciler ran against this baseline document (lines 139-146). -/
  | reconciledAgainst (base : Doc)
  /-- The final diff was computed between these line lists (line 151). -/
  | diffShown (base final : List String)
  /-- The confirm prompt was reached and answered (line 160). -/
  | confirmPrompt (c : Choice)
  /-- `ncm.overwrite_nodes_configuration` was called with this document
  (line 174). -/
  | wrote (d : Doc)
deriving DecidableEq

/-- The recoverable errors the loop's `except` clause catches (line 179). -/
inductive ErrKind where
  /-- `EditorError` from a non-zero editor exit (line 74). -/
  | editorExit
  /-- `json.JSONDecodeError` from `json.loads` (line 129). -/
  | jsonDecode
  /-- `EditorError("No changes detected")` (line 137). -/
  | noChanges
  /-- `NCMError` from `ncm.json_to_nodes_configuration` (line 171). -/
  | serialize
  /-- `NCMError` from `ncm.overwrite_nodes_configuration` (line 177). -/
  | write
deriving DecidableEq

/-- How one iteration of the loop body ends. -/
inductive AttemptEnd where
  /-- An exception caught by the `except` clause: the `Try again?` prompt
  follows. -/
  | recoverable (e : ErrKind)
  /-- An exception not caught by the `except` clause (e.g. `KeyError` on a
  baseline without `version`): the command aborts with a traceback. -/
  | crashed
  /-- `break`: the loop ends and `edit` returns 0. -/
  | brk
  /-- `continue` from choice `[2] Edit`. -/
  | next
deriving DecidableEq

/-- The state after one iteration: the (possibly updated) `edited_text`
variable, the observable actions of the iteration, and how it ended. -/
structure AttemptOut where
  editedText : Option String
  events : List TraceEv
  ending : AttemptEnd
deriving DecidableEq

/-- Model of `_edit_text_with_editor` (lines 64-79).  The editor process is
external: its exit code `rc` and the temporary file's final contents
`saved` are inputs.  The seed `text` is written to the file before the
editor runs; on a non-zero exit code `EditorError` is raised *before* the
file is re-read, so `saved` is discarded (`.error`), otherwise the file's
contents are returned. -/
def editTextWithEditor (_text : String) (rc : Int) (saved : String) :
    Except Unit String :=
  if rc ≠ 0 then .error ()
  else .ok saved

/-- One iteration of the `while True:` body of `NodesConfig.edit`
(lines 125-177), from the `try:` down to (but not including) the
`except` clause's `Try again?` prompt. -/
def runAttempt (nc : Doc) (editedText : Option String) (a : Attempt) :
    AttemptOut :=
  let formatted := dumps (Json.obj nc)
  -- line 126-128: `formatted if edited_text is None else edited_text`
  let seed := match editedText with
    | none => formatted
    | some t => t
  match editTextWithEditor seed a.rc a.saved with
  | .error _ =>
      -- EditorError: `edited_text` keeps its previous value
      ⟨editedText, [.editorSeed seed], .recoverable .editorExit⟩
  | .ok newText =>
      let et := some newText
      match a.parsed with
      | none => ⟨et, [.editorSeed seed], .recoverable .jsonDecode⟩
      | some editedJson =>
          -- lines 130-134: both documents re-serialized and diffed
          let ncList := splitLines (dumps (Json.obj nc))
          let editedList := splitLines (dumps editedJson)
          if (unifiedDiff ncList editedList).isEmpty then
            ⟨et, [.editorSeed seed, .preDiff ncList editedList, .noChangesRaised],
              .recoverable .noChanges⟩
          else
            match editedJson with
            | Json.obj editedNc =>
                (match reconcile a.nowMs nc editedNc with
                 | none =>
                     ⟨et, [.editorSeed seed, .preDiff ncList editedList,
                           .reconciledAgainst nc], .crashed⟩
                 | some recNc =>
                     let finalList := splitLines (dumps (Json.obj recNc))
                     let evs := [TraceEv.editorSeed seed,
                                 .preDiff ncList editedList,
                                 .reconciledAgainst nc,
                                 .diffShown ncList finalList,
                                 .confirmPrompt a.choice]
                     match a.choice with
                     | .editAgain => ⟨et, evs, .next⟩
                     | .cancel => ⟨et, evs, .brk⟩
                     | .apply =>
                         if a.serializeOk then
                           if a.overwriteOk then
                             ⟨et, evs ++ [.wrote recNc], .brk⟩
                           else
                             ⟨et, evs ++ [.wrote recNc], .recoverable .write⟩
                         else ⟨et, evs, .recoverable .serialize⟩)
            | _ =>
                -- `edited_nc.get` on a non-dict raises AttributeError,
                -- which the except clause does not catch
                ⟨et, [.editorSeed seed, .preDiff ncList editedList], .crashed⟩

/-- How a command invocation ends. -/
inductive CmdOutcome where
  /-- The function returned this value (`none` = Python `None`). -/
  | returned (code : Option Int)
  /-- An uncaught exception propagated out. -/
  | crashed
  /-- The event script ran out while the loop was still running (the real
  loop has no iteration cap). -/
  | pending
deriving DecidableEq

/-- The `while True:` loop of `NodesConfig.edit` (lines 124-184), driven by
a script of attempts.  The baseline `nc` is a fixed parameter: the source
never re-fetches inside the loop. -/
def editLoop (nc : Doc) (editedText : Option String) :
    List Attempt → CmdOutcome × List TraceEv
  | [] => (.pending, [])
  | a :: rest =>
      let out := runAttempt nc editedText a
      match out.ending with
      | .crashed => (.crashed, out.events)
      | .brk => (.returned (some 0), out.events)
      | .next =>
          let r := editLoop nc out.editedText rest
          (r.1, out.events ++ r.2)
      | .recoverable _ =>
          -- line 181: `if not confirm_prompt("Try again?"): break`
          if a.tryAgain then
            let r := editLoop nc out.editedText rest
            (r.1, out.events ++ r.2)
          else (.returned (some 0), out.events)

/-- `NodesConfig.edit` (lines 108-186).  `fetched` is the result of the
initial `_get_client()` / `_get_nodes_config(client)` (lines 114-119):
`none` means an exception was raised there, upon which the command prints
the error and returns 1.  Otherwise the loop runs with `edited_text =
None` and the command returns 0 when the loop exits. -/
def edit (fetched : Option Doc) (script : List Attempt) :
    CmdOutcome × List TraceEv :=
  match fetched with
  | none => (.returned (some 1), [])
  | some nc =>
      let r := editLoop nc none script
      (r.1, .fetch nc :: r.2)

/-! ### The one-shot commands: `show`, `bootstrap`, `shrink` -/

/-- `NodesConfig.show` (lines 88-106): on an exception from
`_get_client()` / `_get_nodes_config(client)` print the error and return
1, otherwise print the highlighted JSON and return 0. -/
def showCmd (fetched : Option Doc) : Option Int :=
  match fetched with
  | none => some 1
  | some _ => some 0

/-- Modelled from the spec: the fixed locality-scope enumeration
(`logdevice.common.types.LocationScope`, a generated thrift enum whose
definition is not under `src/`).  The spec names the scopes `node`, `rack`
and `region` in its examples; member names are upper-case, and lookup by
name is made case-insensitive by upper-casing the query
(`LocationScope[scope_str.upper()]`, line 230). -/
inductive LocationScope where
  | node
  | rack
  | region
deriving DecidableEq

/-- `LocationScope[scope_str.upper()]` (line 230): case-insensitive lookup
of a scope name against the enumeration; `none` models the `KeyError` the
subscript raises for an unrecognized name. -/
def LocationScope.fromName (s : String) : Option LocationScope :=
  let u := String.mk (s.toList.map Char.toUpper)
  if u = "NODE" then some .node
  else if u = "RACK" then some .rack
  else if u = "REGION" then some .region
  else none

/-- The `for scope_str, factor in metadata_replicate_across.items():` loop
of `NodesConfig.bootstrap` (lines 228-236): build the replication property,
or stop at the first unrecognized scope name (the `except KeyError:` arm
prints `"{scope_str} is not a valid scope"` and returns 1). -/
def buildReplication :
    List (String × Int) → Except String (List (LocationScope × Int))
  | [] => .ok []
  | (s, f) :: rest =>
      match LocationScope.fromName s with
      | none => .error s
      | some sc =>
          match buildReplication rest with
          | .error e => .error e
          | .ok tl => .ok ((sc, f) :: tl)

/-- What an invocation of `bootstrap` did. -/
structure BootstrapOut where
  /-- The Python return value (`none` = fell off the end, Python `None`). -/
  retCode : Option Int
  /-- Whether `client.bootstrapCluster` was called. -/
  rpcIssued : Bool
  /-- The scope name reported by `"{scope_str} is not a valid scope"`,
  when that message was printed. -/
  invalidScope : Option String
deriving DecidableEq

/-- `NodesConfig.bootstrap` (lines 210-251).  The replication mapping is
validated before any client is built; only if every scope name resolves is
the `bootstrapCluster` RPC issued (`rpcOk` tells whether it succeeds).  On
RPC failure the command returns 1; on RPC success it prints the success
message and falls off the end, returning Python `None`. -/
def bootstrap (metadata_replicate_across : List (String × Int))
    (rpcOk : Bool) : BootstrapOut :=
  match buildReplication metadata_replicate_across with
  | .error s => ⟨some 1, false, some s⟩
  | .ok _ =>
      if rpcOk then ⟨none, true, none⟩
      else ⟨some 1, true, none⟩

/-- `NodesConfig.shrink` (lines 253-278): issue the `removeNodes` RPC for
the given node indexes; return 1 if it raises, otherwise print the success
message and fall off the end, returning Python `None`. -/
def shrink (_node_indexes : List Int) (rpcOk : Bool) : Option Int :=
  if rpcOk then none else some 1

/-! ### Helper lemmas -/

theorem Doc.lookup_set_self (d : Doc) (k : String) (v : Json) :
    Doc.lookup (Doc.set d k v) k = some v := by
  induction d with
  | nil => simp [Doc.set, Doc.lookup]
  | cons p rest ih =>
      obtain ⟨k', v'⟩ := p
      by_cases h : k' = k
      · simp [Doc.set, Doc.lookup, h]
      · simp [Doc.set, Doc.lookup, h, ih]

theorem Doc.lookup_set_ne (d : Doc) (k k' : String) (v : Json)
    (h : k ≠ k') : Doc.lookup (Doc.set d k v) k' = Doc.lookup d k' := by
  induction d with
  | nil => simp [Doc.set, Doc.lookup, h]
  | cons p rest ih =>
      obtain ⟨k'', v''⟩ := p
      by_cases hk : k'' = k
      · subst hk
        simp [Doc.set, Doc.lookup, h]
      · simp [Doc.set, Doc.lookup, hk, ih]

theorem allKeep_diffOps_self (a : List String) :
    allKeep (diffOps a a) = true := by
  induction a with
  | nil => simp [diffOps, allKeep]
  | cons x xs ih => simp [diffOps, allKeep, ih]

theorem eq_of_allKeep_diffOps :
    ∀ a b : List String, allKeep (diffOps a b) = true → a = b := by
  intro a
  induction a with
  | nil =>
      intro b h
      cases b with
      | nil => rfl
      | cons y ys => simp [diffOps, allKeep] at h
  | cons x xs ih =>
      intro b h
      cases b with
      | nil => simp [diffOps, allKeep] at h
      | cons y ys =>
          by_cases hxy : x = y
          · subst hxy
            simp only [diffOps, if_pos rfl, allKeep] at h
            rw [ih ys h]
          · simp [diffOps, hxy, allKeep] at h

theorem allKeep_diffOps_iff (a b : List String) :
    allKeep (diffOps a b) = true ↔ a = b := by
  constructor
  · exact eq_of_allKeep_diffOps a b
  · intro h
    subst h
    exact allKeep_diffOps_self a

theorem unifiedDiff_eq_nil_iff (a b : List String) :
    unifiedDiff a b = [] ↔ a = b := by
  unfold unifiedDiff
  by_cases h : allKeep (diffOps a b) = true
  · simp [h, (allKeep_diffOps_iff a b).mp h, allKeep_diffOps_self]
  · rw [if_neg h]
    constructor
    · intro hh
      cases hh
    · intro hh
      exact absurd ((allKeep_diffOps_iff a b).mpr hh) h

/-- The two reconciliation steps (lines 139-146) as a total function of the
edited document and the baseline's field values; used to state
`reconcile_char`. -/
def reconcileSteps (now : Int) (edited : Doc) (v : Int) (lt : Json) : Doc :=
  let e1 := if (Doc.lookup edited "version").getD (Json.num v) = Json.num v
            then Doc.set edited "version" (Json.num (v + 1)) else edited
  if (Doc.lookup e1 "last_timestamp").getD lt = lt
  then Doc.set e1 "last_timestamp" (Json.num now) else e1

/-- When the baseline has an integer `version` and some `last_timestamp`,
`reconcile` succeeds and produces exactly the two-step update of the
source. -/
theorem reconcile_char (now : Int) (nc edited : Doc) (v : Int) (lt : Json)
    (hv : Doc.lookup nc "version" = some (Json.num v))
    (hlt : Doc.lookup nc "last_timestamp" = some lt) :
    reconcile now nc edited = some (reconcileSteps now edited v lt) := by
  simp only [reconcile, hv, hlt, reconcileSteps]
  by_cases hc : (Doc.lookup edited "version").getD (Json.num v) = Json.num v
  · simp [hc]
  · simp [hc]

theorem string_version_ne_last_timestamp : "version" ≠ "last_timestamp" := by
  decide

/-- The reconciler's output never carries the baseline's version value. -/
theorem reconcile_version_ne (now : Int) (nc edited rec : Doc) (v : Int)
    (hv : Doc.lookup nc "version" = some (Json.num v))
    (hr : reconcile now nc edited = some rec) :
    Doc.lookup rec "version" ≠ some (Json.num v) := by
  simp only [reconcile, hv] at hr
  by_cases hc : (Doc.lookup edited "version").getD (Json.num v) = Json.num v
  · rw [if_pos hc] at hr
    rcases hlt : Doc.lookup nc "last_timestamp" with _ | lt
    · rw [hlt] at hr
      cases hr
    · rw [hlt] at hr
      injection hr with hr
      subst hr
      by_cases hc2 : (Doc.lookup (Doc.set edited "version" (Json.num (v + 1)))
          "last_timestamp").getD lt = lt
      · rw [if_pos hc2,
          Doc.lookup_set_ne _ _ _ _ (Ne.symm string_version_ne_last_timestamp),
          Doc.lookup_set_self]
        simp
      · rw [if_neg hc2, Doc.lookup_set_self]
        simp
  · rw [if_neg hc] at hr
    rcases hlt : Doc.lookup nc "last_timestamp" with _ | lt
    · rw [hlt] at hr
      cases hr
    · rw [hlt] at hr
      injection hr with hr
      subst hr
      have hne : Doc.lookup edited "version" ≠ some (Json.num v) := by
        intro hj
        rw [hj] at hc
        exact hc rfl
      by_cases hc2 : (Doc.lookup edited "last_timestamp").getD lt = lt
      · rw [if_pos hc2,
          Doc.lookup_set_ne _ _ _ _ (Ne.symm string_version_ne_last_timestamp)]
        exact hne
      · rw [if_neg hc2]
        exact hne

/-- The reconciler's output always carries both managed keys. -/
theorem reconcile_keys_present (now : Int) (nc edited rec : Doc)
    (hr : reconcile now nc edited = some rec) :
    (Doc.lookup rec "version").isSome ∧
    (Doc.lookup rec "last_timestamp").isSome := by
  simp only [reconcile] at hr
  split at hr
  · cases hr
  rename_i v hv
  split at hr
  · cases hr
  rename_i e1 he1
  split at hr
  · cases hr
  rename_i lt hlt
  injection hr with hr
  subst hr
  have hver : (Doc.lookup e1 "version").isSome := by
    by_cases hc : (Doc.lookup edited "version").getD v = v
    · rw [if_pos hc] at he1
      split at he1
      · injection he1 with he1
        subst he1
        rw [Doc.lookup_set_self]
        rfl
      · cases he1
    · rw [if_neg hc] at he1
      injection he1 with he1
      subst he1
      rcases hj : Doc.lookup edited "version" with _ | j
      · rw [hj] at hc
        simp at hc
      · rfl
  constructor
  · by_cases hc2 : (Doc.lookup e1 "last_timestamp").getD lt = lt
    · rw [if_pos hc2,
        Doc.lookup_set_ne _ _ _ _ (Ne.symm string_version_ne_last_timestamp)]
      exact hver
    · rw [if_neg hc2]
      exact hver
  · by_cases hc2 : (Doc.lookup e1 "last_timestamp").getD lt = lt
    · rw [if_pos hc2, Doc.lookup_set_self]
      rfl
    · rw [if_neg hc2]
      rcases hj : Doc.lookup e1 "last_timestamp" with _ | j
      · rw [hj] at hc2
        simp at hc2
      · rfl

/-! ### Trace invariants of the edit loop -/

/-- Per-event session invariant for baseline `nc`: the loop body fetches
nothing, diffs and reconciles only against the fixed baseline, and writes
only reconciler outputs. -/
def evOk (nc : Doc) : TraceEv → Prop
  | .fetch _ => False
  | .preDiff b _ => b = splitLines (dumps (Json.obj nc))
  | .diffShown b _ => b = splitLines (dumps (Json.obj nc))
  | .reconciledAgainst base => base = nc
  | .wrote d => ∃ ed now, reconcile now nc ed = some d
  | _ => True

theorem runAttempt_evOk (nc : Doc) (et : Option String) (a : Attempt) :
    ∀ ev ∈ (runAttempt nc et a).events, evOk nc ev := by
  obtain ⟨rc, saved, parsed, nowMs, choice, sOk, oOk, tA⟩ := a
  intro ev hev
  by_cases hrc : rc = 0
  case neg =>
    simp [runAttempt, editTextWithEditor, hrc] at hev
    subst hev
    trivial
  case pos =>
    rcases parsed with _ | editedJson
    · simp [runAttempt, editTextWithEditor, hrc] at hev
      subst hev
      trivial
    · by_cases hdiff : (unifiedDiff (splitLines (dumps (Json.obj nc)))
          (splitLines (dumps editedJson))).isEmpty = true
      · simp [runAttempt, editTextWithEditor, hrc, hdiff] at hev
        rcases hev with rfl | rfl | rfl <;> simp [evOk]
      · rcases editedJson with _ | b | n | sj | es | editedNc
        all_goals try
          (simp [runAttempt, editTextWithEditor, hrc, hdiff] at hev
           rcases hev with rfl | rfl <;> simp [evOk])
        rcases hrec : reconcile nowMs nc editedNc with _ | recNc
        · simp [runAttempt, editTextWithEditor, hrc, hdiff, hrec] at hev
          rcases hev with rfl | rfl | rfl <;> simp [evOk]
        · rcases choice with _ | _ | _
          · by_cases hs : sOk = true
            · by_cases ho : oOk = true
              all_goals
                simp [runAttempt, editTextWithEditor, hrc, hdiff, hrec,
                  hs, ho] at hev
              all_goals
                rcases hev with rfl | rfl | rfl | rfl | rfl | rfl <;>
                  (simp [evOk]; try exact ⟨editedNc, nowMs, hrec⟩)
            · simp [runAttempt, editTextWithEditor, hrc, hdiff, hrec,
                hs] at hev
              rcases hev with rfl | rfl | rfl | rfl | rfl <;> simp [evOk]
          · simp [runAttempt, editTextWithEditor, hrc, hdiff, hrec] at hev
            rcases hev with rfl | rfl | rfl | rfl | rfl <;> simp [evOk]
          · simp [runAttempt, editTextWithEditor, hrc, hdiff, hrec] at hev
            rcases hev with rfl | rfl | rfl | rfl | rfl <;> simp [evOk]

theorem editLoop_evOk (nc : Doc) (script : List Attempt) :
    ∀ (et : Option String), ∀ ev ∈ (editLoop nc et script).2, evOk nc ev := by
  induction script with
  | nil =>
      intro et ev hev
      simp [editLoop] at hev
  | cons a rest ih =>
      intro et ev hev
      rcases hend : (runAttempt nc et a).ending with e | _ | _ | _ <;>
        simp only [editLoop, hend] at hev
      · by_cases ht : a.tryAgain = true
        · simp only [ht, if_true, List.mem_append] at hev
          rcases hev with h | h
          · exact runAttempt_evOk nc et a ev h
          · exact ih _ ev h
        · simp [ht] at hev
          exact runAttempt_evOk nc et a ev hev
      · exact runAttempt_evOk nc et a ev hev
      · exact runAttempt_evOk nc et a ev hev
      · simp only [List.mem_append] at hev
        rcases hev with h | h
        · exact runAttempt_evOk nc et a ev h
        · exact ih _ ev h

/-- Every event of an `edit` session is either the single initial fetch or
satisfies the loop-body invariant. -/
theorem edit_evOk (nc : Doc) (script : List Attempt) :
    ∀ ev ∈ (edit (some nc) script).2,
      ev = TraceEv.fetch nc ∨ evOk nc ev := by
  intro ev hev
  simp only [edit, List.mem_cons] at hev
  rcases hev with rfl | h
  · exact Or.inl rfl
  · exact Or.inr (editLoop_evOk nc script none ev h)

/-! ### Editor seeding across retries -/

/-- The editor-seed events of a trace, in order: one per editor
invocation. -/
def seedsOf (tr : List TraceEv) : List String :=
  tr.filterMap (fun ev =>
    match ev with
    | .editorSeed s => some s
    | _ => none)

/-- The saved text of the last editor run that exited successfully (exit
code 0) among the given attempts, if any run succeeded.  This is the
claim-side description of the `edited_text` variable: the loop assigns it
exactly when `_edit_text_with_editor` returns. -/
def lastSavedText : List Attempt → Option String
  | [] => none
  | a :: rest =>
      match lastSavedText rest with
      | some t => some t
      | none => if a.rc = 0 then some a.saved else none

/-- The value of `edited_text` after processing the given attempts,
starting from `et`. -/
def editedTextAfter (et : Option String) (pre : List Attempt) :
    Option String :=
  match lastSavedText pre with
  | some t => some t
  | none => et

theorem editedTextAfter_cons (et : Option String) (a : Attempt)
    (pre : List Attempt) :
    editedTextAfter et (a :: pre) =
      editedTextAfter (if a.rc = 0 then some a.saved else et) pre := by
  rcases h : lastSavedText pre with _ | t
  · simp only [editedTextAfter, lastSavedText, h]
    by_cases hrc : a.rc = 0 <;> simp [hrc]
  · simp only [editedTextAfter, lastSavedText, h]

theorem runAttempt_editedText (nc : Doc) (et : Option String) (a : Attempt) :
    (runAttempt nc et a).editedText =
      if a.rc = 0 then some a.saved else et := by
  obtain ⟨rc, saved, parsed, nowMs, choice, sOk, oOk, tA⟩ := a
  by_cases hrc : rc = 0
  case neg => simp [runAttempt, editTextWithEditor, hrc]
  case pos =>
    rcases parsed with _ | editedJson
    · simp [runAttempt, editTextWithEditor, hrc]
    · by_cases hdiff : (unifiedDiff (splitLines (dumps (Json.obj nc)))
          (splitLines (dumps editedJson))).isEmpty = true
      · simp [runAttempt, editTextWithEditor, hrc, hdiff]
      · rcases editedJson with _ | b | n | sj | es | editedNc
        all_goals try simp [runAttempt, editTextWithEditor, hrc, hdiff]
        rcases hrec : reconcile nowMs nc editedNc with _ | recNc
        · simp [runAttempt, editTextWithEditor, hrc, hdiff, hrec]
        · rcases choice with _ | _ | _ <;>
            rcases sOk with _ | _ <;> rcases oOk with _ | _ <;>
            simp [runAttempt, editTextWithEditor, hrc, hdiff, hrec]

theorem runAttempt_seeds (nc : Doc) (et : Option String) (a : Attempt) :
    seedsOf (runAttempt nc et a).events =
      [Option.getD et (dumps (Json.obj nc))] := by
  have hseed :
      (match et with
       | none => dumps (Json.obj nc)
       | some t => t) = Option.getD et (dumps (Json.obj nc)) := by
    cases et <;> rfl
  obtain ⟨rc, saved, parsed, nowMs, choice, sOk, oOk, tA⟩ := a
  by_cases hrc : rc = 0
  case neg => simp [runAttempt, editTextWithEditor, hrc, seedsOf, hseed]
  case pos =>
    rcases parsed with _ | editedJson
    · simp [runAttempt, editTextWithEditor, hrc, seedsOf, hseed]
    · by_cases hdiff : (unifiedDiff (splitLines (dumps (Json.obj nc)))
          (splitLines (dumps editedJson))).isEmpty = true
      · simp [runAttempt, editTextWithEditor, hrc, hdiff, seedsOf, hseed]
      · rcases editedJson with _ | b | n | sj | es | editedNc
        all_goals try
          simp [runAttempt, editTextWithEditor, hrc, hdiff, seedsOf, hseed]
        rcases hrec : reconcile nowMs nc editedNc with _ | recNc
        · simp [runAttempt, editTextWithEditor, hrc, hdiff, hrec, seedsOf,
            hseed]
        · rcases choice with _ | _ | _ <;>
            rcases sOk with _ | _ <;> rcases oOk with _ | _ <;>
            simp [runAttempt, editTextWithEditor, hrc, hdiff, hrec, seedsOf,
              hseed]

theorem seedsOf_append (xs ys : List TraceEv) :
    seedsOf (xs ++ ys) = seedsOf xs ++ seedsOf ys := by
  simp [seedsOf]

/-- The `k`-th editor invocation of a session is seeded with the text of
the last successful editor run among the attempts already processed, or
with the initial text when none succeeded yet. -/
theorem editLoop_seeds (nc : Doc) (script : List Attempt) :
    ∀ (et : Option String) (k : Nat) (s : String),
      (seedsOf (editLoop nc et script).2)[k]? = some s →
      s = Option.getD (editedTextAfter et (script.take k))
            (dumps (Json.obj nc)) := by
  induction script with
  | nil =>
      intro et k s hs
      simp [editLoop, seedsOf] at hs
  | cons a rest ih =>
      intro et k s hs
      rcases hend : (runAttempt nc et a).ending with e | _ | _ | _ <;>
        simp only [editLoop, hend] at hs
      · by_cases ht : a.tryAgain = true
        · simp only [ht, if_true, seedsOf_append, runAttempt_seeds] at hs
          cases k with
          | zero =>
              simp at hs
              simp [editedTextAfter, lastSavedText, hs]
          | succ k =>
              simp only [List.cons_append, List.nil_append,
                List.getElem?_cons_succ] at hs
              have hrec := ih (runAttempt nc et a).editedText k s hs
              rw [runAttempt_editedText] at hrec
              rw [List.take_succ_cons, editedTextAfter_cons]
              exact hrec
        · simp only [ht, Bool.false_eq_true, if_false,
            runAttempt_seeds] at hs
          cases k with
          | zero =>
              simp at hs
              simp [editedTextAfter, lastSavedText, hs]
          | succ k => simp at hs
      · rw [runAttempt_seeds] at hs
        cases k with
        | zero =>
            simp at hs
            simp [editedTextAfter, lastSavedText, hs]
        | succ k => simp at hs
      · rw [runAttempt_seeds] at hs
        cases k with
        | zero =>
            simp at hs
            simp [editedTextAfter, lastSavedText, hs]
        | succ k => simp at hs
      · simp only [seedsOf_append, runAttempt_seeds] at hs
        cases k with
        | zero =>
            simp at hs
            simp [editedTextAfter, lastSavedText, hs]
        | succ k =>
            simp only [List.cons_append, List.nil_append,
              List.getElem?_cons_succ] at hs
            have hrec := ih (runAttempt nc et a).editedText k s hs
            rw [runAttempt_editedText] at hrec
            rw [List.take_succ_cons, editedTextAfter_cons]
            exact hrec

/-- The loop only ever returns 0 (every `break` leads to `return 0`,
line 186). -/
theorem editLoop_returned (nc : Doc) (script : List Attempt) :
    ∀ (et : Option String) (c : Option Int),
      (editLoop nc et script).1 = CmdOutcome.returned c → c = some 0 := by
  induction script with
  | nil =>
      intro et c hc
      simp [editLoop] at hc
  | cons a rest ih =>
      intro et c hc
      rcases hend : (runAttempt nc et a).ending with e | _ | _ | _ <;>
        simp only [editLoop, hend] at hc
      · by_cases ht : a.tryAgain = true
        · simp only [ht, if_true] at hc
          exact ih _ c hc
        · simp only [ht, Bool.false_eq_true, if_false] at hc
          injection hc with hc
          exact hc.symm
      · cases hc
      · injection hc with hc
        exact hc.symm
      · exact ih _ c hc

/-! ### Concrete fixtures (the spec's §8 scenario) used by witnesses -/

/-- Baseline document of the spec scenario:
`{version:5, last_timestamp:1000, nodes:[1,2]}`. -/
def exampleNc : Doc :=
  [("version", Json.num 5), ("last_timestamp", Json.num 1000),
   ("nodes", Json.arr [Json.num 1, Json.num 2])]

/-- Edited document of the spec scenario: the user appended node 3 and left
`version`/`last_timestamp` untouched. -/
def exampleEdited : Doc :=
  [("version", Json.num 5), ("last_timestamp", Json.num 1000),
   ("nodes", Json.arr [Json.num 1, Json.num 2, Json.num 3])]

/-- The reconciled result of that scenario at wall clock 2000 ms. -/
def exampleReconciled : Doc :=
  [("version", Json.num 6), ("last_timestamp", Json.num 2000),
   ("nodes", Json.arr [Json.num 1, Json.num 2, Json.num 3])]

/-- An edited document that omits `version` and `last_timestamp`
entirely. -/
def exampleEditedBare : Doc := [("nodes", Json.arr [Json.num 1])]

/-- The reconciled result of the bare edit at wall clock 2000 ms (both
managed keys are appended). -/
def exampleReconciledBare : Doc :=
  [("nodes", Json.arr [Json.num 1]), ("version", Json.num 6),
   ("last_timestamp", Json.num 2000)]

/-- A loop iteration whose editor run succeeds, parses to `exampleEdited`,
and is applied. -/
def exampleApplyAttempt : Attempt :=
  ⟨0, "t", some (Json.obj exampleEdited), 2000, Choice.apply, true, true,
   false⟩

/-- A loop iteration whose editor run succeeds, parses to `exampleEdited`,
and is cancelled at the confirm prompt. -/
def exampleCancelAttempt : Attempt :=
  ⟨0, "t", some (Json.obj exampleEdited), 2000, Choice.cancel, true, true,
   false⟩

/-- A loop iteration whose editor run resaves the baseline unchanged. -/
def exampleNoopAttempt : Attempt :=
  ⟨0, "t", some (Json.obj exampleNc), 2000, Choice.apply, true, true,
   false⟩

/-- A loop iteration whose editor process exits with status 1, then the
user asks to try again. -/
def exampleFailAttempt : Attempt :=
  ⟨1, "garbage", some (Json.obj exampleEdited), 2000, Choice.cancel, true,
   true, true⟩

/-! ### The claims -/

/-- C1: if the parsed edited document's version equals the baseline
document's version, the reconciled document's version equals the baseline
version plus 1; if the edited version differs from the baseline version,
it is preserved exactly as the user wrote it. -/
theorem reconcile_version_policy (now : Int) (nc edited rec : Doc) (v : Int)
    (hv : Doc.lookup nc "version" = some (Json.num v))
    (hr : reconcile now nc edited = some rec) :
    (Doc.lookup edited "version" = some (Json.num v) →
      Doc.lookup rec "version" = some (Json.num (v + 1))) ∧
    (∀ j, Doc.lookup edited "version" = some j → j ≠ Json.num v →
      Doc.lookup rec "version" = some j) := by
  simp only [reconcile, hv] at hr
  by_cases hc : (Doc.lookup edited "version").getD (Json.num v) = Json.num v
  · rw [if_pos hc] at hr
    rcases hlt : Doc.lookup nc "last_timestamp" with _ | lt
    · rw [hlt] at hr
      cases hr
    · rw [hlt] at hr
      injection hr with hr
      subst hr
      constructor
      · intro _
        by_cases hc2 : (Doc.lookup (Doc.set edited "version"
            (Json.num (v + 1))) "last_timestamp").getD lt = lt
        · rw [if_pos hc2,
            Doc.lookup_set_ne _ _ _ _
              (Ne.symm string_version_ne_last_timestamp),
            Doc.lookup_set_self]
        · rw [if_neg hc2, Doc.lookup_set_self]
      · intro j hj hne
        rw [hj] at hc
        simp only [Option.getD_some] at hc
        exact absurd hc hne
  · rw [if_neg hc] at hr
    rcases hlt : Doc.lookup nc "last_timestamp" with _ | lt
    · rw [hlt] at hr
      cases hr
    · rw [hlt] at hr
      injection hr with hr
      subst hr
      constructor
      · intro h
        rw [h] at hc
        simp at hc
      · intro j hj hne
        by_cases hc2 : (Doc.lookup edited "last_timestamp").getD lt = lt
        · rw [if_pos hc2,
            Doc.lookup_set_ne _ _ _ _
              (Ne.symm string_version_ne_last_timestamp)]
          exact hj
        · rw [if_neg hc2]
          exact hj

/-- C1 witness: the spec's scenario, edited version 5 equals baseline
version 5, reconciled version is 6. -/
theorem reconcile_version_policy_witness :
    Doc.lookup exampleReconciled "version" = some (Json.num 6) :=
  (reconcile_version_policy 2000 exampleNc exampleEdited exampleReconciled 5
    (by decide) (by decide)).1 (by decide)

/-- C2: if the parsed edited document's `last_timestamp` equals the
baseline's, the reconciled `last_timestamp` is set to the wall clock at
reconciliation (hence at least the original, provided the clock has not
gone backwards since the original was stamped); if it differs from the
baseline's, it is preserved exactly. -/
theorem reconcile_timestamp_policy (now : Int) (nc edited rec : Doc)
    (v : Int) (lt : Json)
    (hv : Doc.lookup nc "version" = some (Json.num v))
    (hlt : Doc.lookup nc "last_timestamp" = some lt)
    (hr : reconcile now nc edited = some rec) :
    (Doc.lookup edited "last_timestamp" = some lt →
      Doc.lookup rec "last_timestamp" = some (Json.num now)) ∧
    (∀ j, Doc.lookup edited "last_timestamp" = some j → j ≠ lt →
      Doc.lookup rec "last_timestamp" = some j) ∧
    (∀ l0 : Int, lt = Json.num l0 → l0 ≤ now →
      Doc.lookup edited "last_timestamp" = some lt →
      ∃ r : Int, Doc.lookup rec "last_timestamp" = some (Json.num r) ∧
        l0 ≤ r) := by
  rw [reconcile_char now nc edited v lt hv hlt] at hr
  injection hr with hr
  subst hr
  simp only [reconcileSteps]
  by_cases hc1 : (Doc.lookup edited "version").getD (Json.num v) = Json.num v
  · rw [if_pos hc1]
    have hts : Doc.lookup (Doc.set edited "version" (Json.num (v + 1)))
        "last_timestamp" = Doc.lookup edited "last_timestamp" :=
      Doc.lookup_set_ne _ _ _ _ string_version_ne_last_timestamp
    rw [hts]
    have h1 : Doc.lookup edited "last_timestamp" = some lt →
        Doc.lookup (if (Doc.lookup edited "last_timestamp").getD lt = lt
          then Doc.set (Doc.set edited "version" (Json.num (v + 1)))
            "last_timestamp" (Json.num now)
          else Doc.set edited "version" (Json.num (v + 1)))
          "last_timestamp" = some (Json.num now) := by
      intro h
      rw [h, Option.getD_some, if_pos rfl, Doc.lookup_set_self]
    refine ⟨h1, ?_, fun l0 hl0 hle h => ⟨now, h1 h, hle⟩⟩
    intro j hj hne
    rw [hj, Option.getD_some, if_neg hne, hts, hj]
  · rw [if_neg hc1]
    have h1 : Doc.lookup edited "last_timestamp" = some lt →
        Doc.lookup (if (Doc.lookup edited "last_timestamp").getD lt = lt
          then Doc.set edited "last_timestamp" (Json.num now) else edited)
          "last_timestamp" = some (Json.num now) := by
      intro h
      rw [h, Option.getD_some, if_pos rfl, Doc.lookup_set_self]
    refine ⟨h1, ?_, fun l0 hl0 hle h => ⟨now, h1 h, hle⟩⟩
    intro j hj hne
    rw [hj, Option.getD_some, if_neg hne, hj]

/-- C2 witness: the spec's scenario at clock 2000 ms — the edited
timestamp 1000 equals the baseline's, so the reconciled value is 2000,
which is at least the original 1000. -/
theorem reconcile_timestamp_policy_witness :
    Doc.lookup exampleReconciled "last_timestamp" = some (Json.num 2000) ∧
    ∃ r : Int, Doc.lookup exampleReconciled "last_timestamp" =
      some (Json.num r) ∧ (1000 : Int) ≤ r :=
  ⟨(reconcile_timestamp_policy 2000 exampleNc exampleEdited
      exampleReconciled 5 (Json.num 1000) (by decide) (by decide)
      (by decide)).1 (by decide),
   (reconcile_timestamp_policy 2000 exampleNc exampleEdited
      exampleReconciled 5 (Json.num 1000) (by decide) (by decide)
      (by decide)).2.2 1000 rfl (by decide) (by decide)⟩

/-- C9: an edited document that omits `version` is treated as equal to the
baseline and the reconciled document carries `version = baseline + 1`;
likewise an omitted `last_timestamp` is filled with the wall clock; and a
reconciled (hence written) document always carries both fields. -/
theorem reconcile_fills_missing_fields (now : Int) (nc edited rec : Doc)
    (v : Int) (lt : Json)
    (hv : Doc.lookup nc "version" = some (Json.num v))
    (hlt : Doc.lookup nc "last_timestamp" = some lt)
    (hr : reconcile now nc edited = some rec) :
    (Doc.lookup edited "version" = none →
      Doc.lookup rec "version" = some (Json.num (v + 1))) ∧
    (Doc.lookup edited "last_timestamp" = none →
      Doc.lookup rec "last_timestamp" = some (Json.num now)) ∧
    (Doc.lookup rec "version").isSome ∧
    (Doc.lookup rec "last_timestamp").isSome := by
  have hkeys := reconcile_keys_present now nc edited rec hr
  rw [reconcile_char now nc edited v lt hv hlt] at hr
  injection hr with hr
  subst hr
  simp only [reconcileSteps]
  refine ⟨?_, ?_, hkeys.1, hkeys.2⟩
  · intro h
    rw [h, Option.getD_none, if_pos rfl]
    by_cases hc2 : (Doc.lookup (Doc.set edited "version"
        (Json.num (v + 1))) "last_timestamp").getD lt = lt
    · rw [if_pos hc2,
        Doc.lookup_set_ne _ _ _ _
          (Ne.symm string_version_ne_last_timestamp),
        Doc.lookup_set_self]
    · rw [if_neg hc2, Doc.lookup_set_self]
  · intro h
    by_cases hc1 : (Doc.lookup edited "version").getD (Json.num v) =
        Json.num v
    · rw [if_pos hc1,
        Doc.lookup_set_ne _ _ _ _ string_version_ne_last_timestamp,
        h, Option.getD_none, if_pos rfl, Doc.lookup_set_self]
    · rw [if_neg hc1, h, Option.getD_none, if_pos rfl,
        Doc.lookup_set_self]

/-- C9 witness: an edit that deleted both managed keys gets them back,
with version 6 and timestamp 2000. -/
theorem reconcile_fills_missing_fields_witness :
    Doc.lookup exampleReconciledBare "version" = some (Json.num 6) ∧
    Doc.lookup exampleReconciledBare "last_timestamp" =
      some (Json.num 2000) :=
  ⟨(reconcile_fills_missing_fields 2000 exampleNc exampleEditedBare
      exampleReconciledBare 5 (Json.num 1000) (by decide) (by decide)
      (by decide)).1 (by decide),
   (reconcile_fills_missing_fields 2000 exampleNc exampleEditedBare
      exampleReconciledBare 5 (Json.num 1000) (by decide) (by decide)
      (by decide)).2.1 (by decide)⟩

/-- C3: an edit attempt whose text parses and whose stably-ordered
re-serialization is line-identical to the baseline snapshot fails with the
no-changes failure (`EditorError("No changes detected")`, a recoverable
error) and records neither a confirm prompt nor a write: it never reaches
Confirming. -/
theorem noop_edit_fails_before_confirm (nc : Doc) (et : Option String)
    (a : Attempt) (d : Json)
    (hrc : a.rc = 0) (hp : a.parsed = some d)
    (hl : splitLines (dumps d) = splitLines (dumps (Json.obj nc))) :
    (runAttempt nc et a).ending = AttemptEnd.recoverable ErrKind.noChanges ∧
    TraceEv.noChangesRaised ∈ (runAttempt nc et a).events ∧
    (∀ c, TraceEv.confirmPrompt c ∉ (runAttempt nc et a).events) ∧
    (∀ d', TraceEv.wrote d' ∉ (runAttempt nc et a).events) := by
  have hdiff : (unifiedDiff (splitLines (dumps (Json.obj nc)))
      (splitLines (dumps d))).isEmpty = true := by
    rw [hl, (unifiedDiff_eq_nil_iff _ _).mpr rfl]
    rfl
  obtain ⟨rc, saved, parsed, nowMs, choice, sOk, oOk, tA⟩ := a
  simp only at hrc hp
  subst hrc
  subst hp
  refine ⟨?_, ?_, ?_, ?_⟩ <;>
    simp [runAttempt, editTextWithEditor, hdiff]

/-- C3 witness: resaving the baseline unchanged ends the attempt with the
no-changes failure. -/
theorem noop_edit_fails_before_confirm_witness :
    (runAttempt exampleNc none exampleNoopAttempt).ending =
      AttemptEnd.recoverable ErrKind.noChanges ∧
    (∀ c, TraceEv.confirmPrompt c ∉
      (runAttempt exampleNc none exampleNoopAttempt).events) :=
  ⟨(noop_edit_fails_before_confirm exampleNc none exampleNoopAttempt
      (Json.obj exampleNc) rfl rfl rfl).1,
   (noop_edit_fails_before_confirm exampleNc none exampleNoopAttempt
      (Json.obj exampleNc) rfl rfl rfl).2.2.1⟩

/-- C4: every document passed to `ncm.overwrite_nodes_configuration`
during an edit session carries a `version` value different from the
baseline's. -/
theorem written_version_always_differs (nc : Doc) (v : Int)
    (script : List Attempt)
    (hv : Doc.lookup nc "version" = some (Json.num v)) :
    ∀ d, TraceEv.wrote d ∈ (edit (some nc) script).2 →
      Doc.lookup d "version" ≠ some (Json.num v) := by
  intro d hd
  rcases edit_evOk nc script _ hd with h | h
  · exact TraceEv.noConfusion h
  · simp only [evOk] at h
    obtain ⟨ed, now, hrec⟩ := h
    exact reconcile_version_ne now nc ed d v hv hrec

/-- C4 witness: the applied run of the spec scenario writes a document
with version 6, not the baseline's 5. -/
theorem written_version_always_differs_witness :
    Doc.lookup exampleReconciled "version" ≠ some (Json.num 5) :=
  written_version_always_differs exampleNc 5 [exampleApplyAttempt]
    (by decide) exampleReconciled (by decide)

/-- C5: the diff of a snapshot against itself is empty and reports no
changes; in general the no-changes test (line 136) fires exactly when the
diff stream is empty. -/
theorem diff_self_reports_no_changes (A B : List String) :
    unifiedDiff A A = [] ∧ hasChanges A A = false ∧
    (hasChanges A B = true ↔ unifiedDiff A B ≠ []) := by
  have hself : unifiedDiff A A = [] := (unifiedDiff_eq_nil_iff A A).mpr rfl
  refine ⟨hself, ?_, ?_⟩
  · simp [hasChanges, hself]
  · simp [hasChanges, List.isEmpty_iff]

/-- Helper for C7: a mapping containing an unrecognized scope name makes
the replication-building loop fail. -/
theorem buildReplication_error_of_invalid :
    ∀ m : List (String × Int),
      (∃ p ∈ m, LocationScope.fromName p.1 = none) →
      ∃ s, buildReplication m = Except.error s := by
  intro m
  induction m with
  | nil =>
      rintro ⟨p, hp, _⟩
      cases hp
  | cons q rest ih =>
      rintro ⟨p, hp, hnone⟩
      obtain ⟨qs, qf⟩ := q
      rcases hq : LocationScope.fromName qs with _ | sc
      · exact ⟨qs, by simp [buildReplication, hq]⟩
      · rcases List.mem_cons.mp hp with rfl | hmem
        · rw [hq] at hnone
          cases hnone
        · obtain ⟨s, hs⟩ := ih ⟨p, hmem, hnone⟩
          exact ⟨s, by simp [buildReplication, hq, hs]⟩

/-- C7: a `bootstrap` invocation whose replication mapping contains a
scope name that fails the case-insensitive lookup against the
locality-scope enumeration fails with the invalid-scope message, returns
the failure status 1, and never issues the RPC. -/
theorem bootstrap_invalid_scope_no_rpc (m : List (String × Int))
    (rpcOk : Bool)
    (h : ∃ p ∈ m, LocationScope.fromName p.1 = none) :
    (bootstrap m rpcOk).retCode = some 1 ∧
    (bootstrap m rpcOk).rpcIssued = false ∧
    (bootstrap m rpcOk).invalidScope.isSome := by
  obtain ⟨s, hs⟩ := buildReplication_error_of_invalid m h
  simp [bootstrap, hs]

/-- C7 witness: the spec's scenario — scope name `"galaxy"` is not a
recognized locality scope. -/
theorem bootstrap_invalid_scope_no_rpc_witness :
    (bootstrap [("galaxy", 2)] true).retCode = some 1 ∧
    (bootstrap [("galaxy", 2)] true).rpcIssued = false ∧
    (bootstrap [("galaxy", 2)] true).invalidScope.isSome :=
  bootstrap_invalid_scope_no_rpc [("galaxy", 2)] true
    ⟨("galaxy", 2), by decide, by decide⟩

/-- Events that are baseline-dependent observations of the loop body. -/
def TraceEv.isFetch : TraceEv → Bool
  | .fetch _ => true
  | _ => false

/-- C8: within one edit session the baseline document is fetched exactly
once; every pre-reconciliation no-op diff, every final diff, and every
reconciliation compares against that same fixed baseline. -/
theorem baseline_fetched_once (nc : Doc) (script : List Attempt) :
    (edit (some nc) script).2.filter TraceEv.isFetch = [TraceEv.fetch nc] ∧
    (∀ b e, TraceEv.preDiff b e ∈ (edit (some nc) script).2 →
      b = splitLines (dumps (Json.obj nc))) ∧
    (∀ b f, TraceEv.diffShown b f ∈ (edit (some nc) script).2 →
      b = splitLines (dumps (Json.obj nc))) ∧
    (∀ base, TraceEv.reconciledAgainst base ∈ (edit (some nc) script).2 →
      base = nc) := by
  refine ⟨?_, ?_, ?_, ?_⟩
  · simp only [edit, List.filter_cons]
    have hnone : ∀ ev ∈ (editLoop nc none script).2,
        ¬ TraceEv.isFetch ev = true := by
      intro ev hev hf
      have h := editLoop_evOk nc script none ev hev
      cases ev <;> simp [TraceEv.isFetch] at hf
      exact h
    rw [List.filter_eq_nil_iff.mpr hnone]
    simp [TraceEv.isFetch]
  · intro b e hb
    rcases edit_evOk nc script _ hb with h | h
    · exact TraceEv.noConfusion h
    · simpa [evOk] using h
  · intro b f hb
    rcases edit_evOk nc script _ hb with h | h
    · exact TraceEv.noConfusion h
    · simpa [evOk] using h
  · intro base hb
    rcases edit_evOk nc script _ hb with h | h
    · exact TraceEv.noConfusion h
    · simpa [evOk] using h

/-- C8 witness: a concrete session whose attempt diffs and reconciles; the
single fetch and the fixed baseline of its pre-reconciliation diff are
checked on it. -/
theorem baseline_fetched_once_witness :
    (edit (some exampleNc) [exampleApplyAttempt]).2.filter TraceEv.isFetch
        = [TraceEv.fetch exampleNc] ∧
    splitLines (dumps (Json.obj exampleNc)) =
      splitLines (dumps (Json.obj exampleNc)) :=
  ⟨(baseline_fetched_once exampleNc [exampleApplyAttempt]).1,
   (baseline_fetched_once exampleNc [exampleApplyAttempt]).2.1
     (splitLines (dumps (Json.obj exampleNc)))
     (splitLines (dumps (Json.obj exampleEdited))) (by decide)⟩

/-- Helper for C10: `editedTextAfter` starting from `None` is exactly the
last successful save. -/
theorem editedTextAfter_none (pre : List Attempt) :
    editedTextAfter none pre = lastSavedText pre := by
  unfold editedTextAfter
  rcases h : lastSavedText pre with _ | t <;> rfl

/-- C10: a non-zero editor exit raises `EditorError` before the temporary
file is re-read, so the text saved during the failed run is discarded; and
every editor invocation of a session is seeded with the saved text of the
last successful editor run so far, or with the original baseline snapshot
if no run has succeeded yet. -/
theorem editor_failure_discards_and_reseeds (nc : Doc)
    (script : List Attempt) (k : Nat) (s : String) :
    (∀ text rc saved, rc ≠ 0 →
      editTextWithEditor text rc saved = Except.error ()) ∧
    ((seedsOf (edit (some nc) script).2)[k]? = some s →
      s = Option.getD (lastSavedText (script.take k))
            (dumps (Json.obj nc))) := by
  constructor
  · intro text rc saved h
    simp [editTextWithEditor, h]
  · intro hk
    have hloop : (seedsOf (editLoop nc none script).2)[k]? = some s := by
      simpa [edit, seedsOf] using hk
    have h2 := editLoop_seeds nc script none k s hloop
    rwa [editedTextAfter_none] at h2

/-- C10 witness: the first attempt's editor exits with status 1; its saved
text `"garbage"` is discarded and the second invocation is reseeded with
the baseline snapshot. -/
theorem editor_failure_discards_and_reseeds_witness :
    editTextWithEditor "seed" 1 "garbage" = Except.error () ∧
    dumps (Json.obj exampleNc) =
      Option.getD (lastSavedText ([exampleFailAttempt,
        exampleCancelAttempt].take 1)) (dumps (Json.obj exampleNc)) :=
  ⟨(editor_failure_discards_and_reseeds exampleNc
      [exampleFailAttempt, exampleCancelAttempt] 1
      (dumps (Json.obj exampleNc))).1 "seed" 1 "garbage" (by decide),
   (editor_failure_discards_and_reseeds exampleNc
      [exampleFailAttempt, exampleCancelAttempt] 1
      (dumps (Json.obj exampleNc))).2 (by decide)⟩

/-- C6 counterexample: with a valid replication mapping and a successful
RPC, `bootstrap` prints the success message and falls off the end of the
function, returning Python `None` — not the integer exit status 0 the
claim requires. -/
theorem bootstrap_success_returns_none :
    (bootstrap [("rack", 2)] true).retCode = none ∧
    ¬ (bootstrap [("rack", 2)] true).retCode = some 0 := by
  constructor
  · decide
  · decide

/-- C6 (amended): every command returns the integer 1 on failure; `show`
returns 0 on success; `edit` returns 1 when the initial fetch fails and 0
whenever the loop terminates; but `bootstrap` and `shrink` return no value
at all (Python `None`) on success. -/
theorem cli_return_codes (script : List Attempt) (nc : Doc)
    (m : List (String × Int)) (nodes : List Int) (c : Option Int) :
    showCmd none = some 1 ∧
    (∀ d : Doc, showCmd (some d) = some 0) ∧
    (edit none script).1 = CmdOutcome.returned (some 1) ∧
    ((edit (some nc) script).1 = CmdOutcome.returned c → c = some 0) ∧
    ((buildReplication m).isOk = true →
      (bootstrap m true).retCode = none ∧
      (bootstrap m false).retCode = some 1) ∧
    ((buildReplication m).isOk = false →
      ∀ r, (bootstrap m r).retCode = some 1) ∧
    shrink nodes true = none ∧
    shrink nodes false = some 1 := by
  refine ⟨rfl, fun d => rfl, rfl, ?_, ?_, ?_, rfl, rfl⟩
  · intro h
    simp only [edit] at h
    exact editLoop_returned nc script none c h
  · intro h
    unfold bootstrap
    rcases hb : buildReplication m with e | rp
    · rw [hb] at h
      simp [Except.isOk, Except.toBool] at h
    · simp
  · intro h
    unfold bootstrap
    rcases hb : buildReplication m with e | rp
    · simp
    · rw [hb] at h
      simp [Except.isOk, Except.toBool] at h

/-- C6 witness for the amended claim: a cancelled edit session returns 0,
a valid bootstrap returns `None` on RPC success and 1 on RPC failure. -/
theorem cli_return_codes_witness :
    (some 0 : Option Int) = some 0 ∧
    (bootstrap [("rack", 2)] true).retCode = none ∧
    (bootstrap [("rack", 2)] false).retCode = some 1 :=
  ⟨(cli_return_codes [exampleCancelAttempt] exampleNc [("rack", 2)] [7]
      (some 0)).2.2.2.1 (by decide),
   ((cli_return_codes [exampleCancelAttempt] exampleNc [("rack", 2)] [7]
      (some 0)).2.2.2.2.1 (by decide)).1,
   ((cli_return_codes [exampleCancelAttempt] exampleNc [("rack", 2)] [7]
      (some 0)).2.2.2.2.1 (by decide)).2⟩

end NCfg
